import Mathlib

/-!
Verification development for the `fineregr` benchmark sweep tool
(`src/main.rs`).  The development shallowly embeds the program:

* `sha256` / `hexBytes` model the `sha2` digest and the `format!("{:x}", _)`
  rendering used to derive a benchmark's cache directory name;
* `Benchmarker` mirrors the configuration struct;
* `Env` packages the observable behaviour of the external subprocesses
  (git, the preparation commands, hyperfine);
* `run_prepare`, `processPair`, `processBenches`, `processCommits` and
  `Benchmarker.run` embed the sweep loop of `Benchmarker::run`;
* `plotSpawns`, `plotRowsOf`, `plotDiags` and `parseResultFile` embed the
  aggregation pass of `Benchmarker::plot`.

Machine integers are modelled as `Nat` with explicit truncation `% 2^32`;
subprocess effects are modelled as an explicit event trace; the result cache
is an association list from paths to JSON values; a Rust panic is modelled
as `Option.none`.
-/

set_option maxRecDepth 100000

/-- Truncation to 32 bits, modelling `u32` wrap-around arithmetic. -/
def w32 (n : Nat) : Nat := n % 4294967296

/-- Right rotation of a 32-bit word by `k` positions. -/
def rotr (k x : Nat) : Nat := w32 ((x >>> k) ||| (x <<< (32 - k)))

/-- Message-schedule sigma-0 function of SHA-256. -/
def ssig0 (x : Nat) : Nat := (rotr 7 x) ^^^ (rotr 18 x) ^^^ (x >>> 3)

/-- Message-schedule sigma-1 function of SHA-256. -/
def ssig1 (x : Nat) : Nat := (rotr 17 x) ^^^ (rotr 19 x) ^^^ (x >>> 10)

/-- Compression Sigma-0 function of SHA-256. -/
def bsig0 (x : Nat) : Nat := (rotr 2 x) ^^^ (rotr 13 x) ^^^ (rotr 22 x)

/-- Compression Sigma-1 function of SHA-256. -/
def bsig1 (x : Nat) : Nat := (rotr 6 x) ^^^ (rotr 11 x) ^^^ (rotr 25 x)

/-- Choice function of SHA-256; `¬x` is taken inside 32 bits. -/
def chF (x y z : Nat) : Nat := (x &&& y) ^^^ ((x ^^^ 4294967295) &&& z)

/-- Majority function of SHA-256. -/
def majF (x y z : Nat) : Nat := (x &&& y) ^^^ (x &&& z) ^^^ (y &&& z)

/-- Round constants of SHA-256. -/
def sha256K : List Nat :=
  [1116352408, 1899447441, 3049323471, 3921009573, 961987163, 1508970993,
   2453635748, 2870763221, 3624381080, 310598401, 607225278, 1426881987,
   1925078388, 2162078206, 2614888103, 3248222580, 3835390401, 4022224774,
   264347078, 604807628, 770255983, 1249150122, 1555081692, 1996064986,
   2554220882, 2821834349, 2952996808, 3210313671, 3336571891, 3584528711,
   113926993, 338241895, 666307205, 773529912, 1294757372, 1396182291,
   1695183700, 1986661051, 2177026350, 2456956037, 2730485921, 2820302411,
   3259730800, 3345764771, 3516065817, 3600352804, 4094571909, 275423344,
   430227734, 506948616, 659060556, 883997877, 958139571, 1322822218,
   1537002063, 1747873779, 1955562222, 2024104815, 2227730452, 2361852424,
   2428436474, 2756734187, 3204031479, 3329325298]

/-- Initial hash state of SHA-256. -/
def sha256H0 : List Nat :=
  [1779033703, 3144134277, 1013904242, 2773480762,
   1359893119, 2600822924, 528734635, 1541459225]

/-- Big-endian byte rendering of `v` on `n` bytes. -/
def beBytes (n v : Nat) : List Nat :=
  (List.range n).map (fun i => (v >>> (8 * (n - 1 - i))) % 256)

/-- Big-endian word value of a byte list. -/
def beWord (bs : List Nat) : Nat := bs.foldl (fun acc b => acc * 256 + b) 0

/-- Fuel-driven worker for `chunksOf`; one unit of fuel per emitted chunk. -/
def chunksOfAux (n : Nat) : Nat → List α → List (List α)
  | _, [] => []
  | 0, _ => []
  | fuel + 1, x :: xs => (x :: xs.take (n - 1)) :: chunksOfAux n fuel (xs.drop (n - 1))

/-- Splits a list into consecutive chunks; used with chunk sizes 4 and 64. -/
def chunksOf (n : Nat) (l : List α) : List (List α) := chunksOfAux n l.length l

/-- SHA-256 padding: append `0x80`, zero bytes, and the 64-bit bit length. -/
def padMessage (msg : List Nat) : List Nat :=
  msg ++ [0x80] ++ List.replicate ((119 - msg.length % 64) % 64) 0
      ++ beBytes 8 (8 * msg.length)

/-- One extension step of the SHA-256 message schedule. -/
def schedStep (w : List Nat) : List Nat :=
  w ++ [w32 (ssig1 (w.getD (w.length - 2) 0) + w.getD (w.length - 7) 0
             + ssig0 (w.getD (w.length - 15) 0) + w.getD (w.length - 16) 0)]

/-- Iterates `schedStep` the given number of times. -/
def schedIter : Nat → List Nat → List Nat
  | 0, w => w
  | n + 1, w => schedIter n (schedStep w)

/-- Full 64-word message schedule from the 16 block words. -/
def schedule (w16 : List Nat) : List Nat := schedIter 48 w16

/-- One SHA-256 compression round on the 8-word working state. -/
def compressStep (st : List Nat) (kw : Nat × Nat) : List Nat :=
  match st with
  | [a, b, c, d, e, f, g, h] =>
      let t1 := w32 (h + bsig1 e + chF e f g + kw.1 + kw.2)
      let t2 := w32 (bsig0 a + majF a b c)
      [w32 (t1 + t2), a, b, c, w32 (d + t1), e, f, g]
  | _ => st

/-- Processes one padded 64-byte block into the running hash state. -/
def processBlock (h block : List Nat) : List Nat :=
  let w := schedule ((chunksOf 4 block).map beWord)
  let st := (sha256K.zip w).foldl compressStep h
  (h.zip st).map (fun p => w32 (p.1 + p.2))

/-- SHA-256 digest of a byte list, as a list of 32 bytes. -/
def sha256 (msg : List Nat) : List Nat :=
  (((chunksOf 64 (padMessage msg)).foldl processBlock sha256H0).map
    (beBytes 4)).flatten

/-- Lowercase hexadecimal digit character for a value below 16. -/
def hexDigitChar (n : Nat) : Char :=
  if n < 10 then Char.ofNat (48 + n) else Char.ofNat (87 + n)

/-- Two lowercase hexadecimal characters of one byte. -/
def hexByte (b : Nat) : List Char := [hexDigitChar (b / 16), hexDigitChar (b % 16)]

/-- Lowercase hexadecimal rendering of a byte list, as with `format!("{:x}", _)`. -/
def hexBytes (bs : List Nat) : List Char := (bs.map hexByte).flatten

/-- UTF-8 encoding of a single character, as a list of bytes. -/
def utf8Char (c : Char) : List Nat :=
  let n := c.toNat
  if n < 0x80 then [n]
  else if n < 0x800 then
    [0xC0 ||| (n >>> 6), 0x80 ||| (n &&& 0x3F)]
  else if n < 0x10000 then
    [0xE0 ||| (n >>> 12), 0x80 ||| ((n >>> 6) &&& 0x3F), 0x80 ||| (n &&& 0x3F)]
  else
    [0xF0 ||| (n >>> 18), 0x80 ||| ((n >>> 12) &&& 0x3F),
     0x80 ||| ((n >>> 6) &&& 0x3F), 0x80 ||| (n &&& 0x3F)]

/-- UTF-8 byte sequence of a string, as hashed by `Sha256::update`. -/
def utf8Str (s : String) : List Nat := (s.data.map utf8Char).flatten

/-- Cache directory name of a benchmark command: lowercase hex of the
SHA-256 of the command's UTF-8 bytes, as in
`format!("{:x}", Sha256::digest(bench))` in `Benchmarker::run`. -/
def hexSha256 (s : String) : String := String.mk (hexBytes (sha256 (utf8Str s)))

/-- JSON values, as far as the program's records need them. -/
inductive Json where
  | str (s : String)
  | num (q : Rat)
  | arr (elems : List Json)
  | obj (fields : List (String × Json))

/-- Configuration, mirroring the `Benchmarker` struct deserialized from TOML. -/
structure Benchmarker where
  repository : String
  prepare : List String
  benchmarks : List String
  repo_dir : String
  num_commits : Option Nat

/-- Subprocess invocations observable during a sweep; the trace of these
events models which subprocesses the program spawns. -/
inductive Event where
  | gitCheckoutMain
  | gitPull
  | gitClone
  | revList
  | gitCheckout (sha : String)
  | gitLogMsg (sha : String)
  | gitLogDate (sha : String)
  | prepare (cmd : String)
  | hyperfine (bench : String)
deriving DecidableEq, Repr

/-- Behaviour of the external world: what each subprocess would do.  All
spawns succeed (infrastructure is healthy); outcomes are the recorded data.
`checkoutExit` is the exit status of `git checkout <sha>`, which the code
never consults. -/
structure Env where
  repoDirExists : Bool
  commits : List String
  checkoutExit : String → Bool
  prepareExit : String → String → Bool
  hyperfineExit : String → String → Bool
  hyperfineOut : String → String → Json
  commitMsgOut : String → String
  commitDateOut : String → String

/-- Paths of result files, as lists of components. -/
abbrev FsPath := List String

/-- The result cache on disk: an association list from paths to JSON files. -/
abbrev FS := List (FsPath × Json)

/-- Lookup of a file in the cache, first binding wins. -/
def FS.lookup (fs : FS) (p : FsPath) : Option Json :=
  match fs with
  | [] => none
  | (q, j) :: rest => if q = p then some j else FS.lookup rest p

/-- Output root of the sweep, `current_dir()/results` in the source. -/
def outRoot : FsPath := ["results"]

/-- Worker for `words`: accumulates the current word reversed while
scanning the character list. -/
def wordsAux : List Char → List Char → List String
  | cur, [] => if cur.isEmpty then [] else [String.mk cur.reverse]
  | cur, c :: cs =>
    if c.isWhitespace then
      if cur.isEmpty then wordsAux [] cs
      else String.mk cur.reverse :: wordsAux [] cs
    else wordsAux (c :: cur) cs

/-- Whitespace splitting of a command string, modelling
`cmd.split_whitespace().collect::<Vec<_>>()`: maximal non-whitespace runs,
so a whitespace-only string yields the empty vector. -/
def words (s : String) : List String := wordsAux [] s.data

/-- Failure record written by `Benchmarker::run` when preparation or the
benchmark backend fails, mirroring the `json!` literal field for field. -/
def failureJson (command gitSha gitMsg gitDate : String) : Json :=
  Json.obj [("results", Json.arr [Json.obj [
    ("command", Json.str command),
    ("git_sha", Json.str gitSha),
    ("git_msg", Json.str gitMsg),
    ("git_date", Json.str gitDate)]])]

/-- Embedding of `Benchmarker::run_prepare` on a list of commands at the
checked-out revision `sha`: each command is split on whitespace and its
first word spawned; `args[0]` on an empty vector is a panic, modelled as
`none`; a non-zero exit (`bail!`) stops the loop reporting `false`. -/
def run_prepare (env : Env) (sha : String) : List String → Option (Bool × List Event)
  | [] => some (true, [])
  | cmd :: rest =>
    match words cmd with
    | [] => none
    | _ :: _ =>
      if env.prepareExit sha cmd then
        match run_prepare env sha rest with
        | none => none
        | some (ok, evts) => some (ok, Event.prepare cmd :: evts)
      else
        some (false, [Event.prepare cmd])

/-- Path of the cached result of one (benchmark, revision) pair, as built in
`Benchmarker::run`: `out_dir.join(hex-sha256(bench)).join(sha + ".json")`. -/
def recordPath (outDir : FsPath) (bench sha : String) : FsPath :=
  outDir ++ [hexSha256 bench, sha ++ ".json"]

/-- Last component of a path, the file name. -/
def lastName (p : FsPath) : String := p.getLast?.getD ""

/-- Characters of the pattern `.json`. -/
def jsonChars : List Char := ['.', 'j', 's', 'o', 'n']

/-- Extension filter of `Benchmarker::plot`: only `.json` files are read. -/
def isJsonName (s : String) : Bool :=
  List.isPrefixOf jsonChars.reverse s.data.reverse

/-- Worker for `fileSha`: removes every occurrence of `.json`, leftmost
first, with one unit of fuel per consumed character. -/
def stripJsonAux : Nat → List Char → List Char
  | 0, l => l
  | _ + 1, [] => []
  | fuel + 1, c :: cs =>
    if List.isPrefixOf jsonChars (c :: cs) then stripJsonAux fuel (cs.drop 4)
    else c :: stripJsonAux fuel cs

/-- Revision id recovered from a result file name, via
`file_name.replace(".json", "")`. -/
def fileSha (name : String) : String :=
  String.mk (stripJsonAux name.data.length name.data)

/-- Subprocesses spawned by one call of `Benchmarker::plot`: for every
`.json` file under the output root, one `git log` for the message and one
for the date. -/
def plotSpawns (fs : FS) : List Event :=
  ((fs.filter (fun pj => isJsonName (lastName pj.1))).map
    (fun pj => [Event.gitLogMsg (fileSha (lastName pj.1)),
                Event.gitLogDate (fileSha (lastName pj.1))])).flatten

/-- Body of the benchmark loop of `Benchmarker::run` for one
(revision, benchmark) pair: compute the record path, skip if the file
exists, otherwise prepare and measure, writing either the backend's export
or a failure record; afterwards refresh the plot (which spawns metadata
fetches).  `none` models a panic aborting the process. -/
def processPair (cfg : Benchmarker) (env : Env) (outDir : FsPath)
    (sha bench : String) (fs : FS) : Option (FS × List Event) :=
  let jsonFile := recordPath outDir bench sha
  let core : Option (FS × List Event) :=
    if (FS.lookup fs jsonFile).isSome then
      some (fs, [])
    else
      match run_prepare env sha cfg.prepare with
      | none => none
      | some (true, pev) =>
        if env.hyperfineExit bench sha then
          some (fs ++ [(jsonFile, env.hyperfineOut bench sha)],
                pev ++ [Event.hyperfine bench])
        else
          some (fs ++ [(jsonFile,
                  failureJson bench sha (env.commitMsgOut sha) (env.commitDateOut sha))],
                pev ++ [Event.hyperfine bench, Event.gitLogMsg sha, Event.gitLogDate sha])
      | some (false, pev) =>
        some (fs ++ [(jsonFile,
                failureJson bench sha (env.commitMsgOut sha) (env.commitDateOut sha))],
              pev ++ [Event.gitLogMsg sha, Event.gitLogDate sha])
  match core with
  | none => none
  | some (fs', ev) => some (fs', ev ++ plotSpawns fs')

/-- Inner loop of `Benchmarker::run` over the configured benchmarks. -/
def processBenches (cfg : Benchmarker) (env : Env) (outDir : FsPath)
    (sha : String) : List String → FS → Option (FS × List Event)
  | [], fs => some (fs, [])
  | b :: bs, fs =>
    match processPair cfg env outDir sha b fs with
    | none => none
    | some (fs1, e1) =>
      match processBenches cfg env outDir sha bs fs1 with
      | none => none
      | some (fs2, e2) => some (fs2, e1 ++ e2)

/-- Outer loop of `Benchmarker::run` over the revisions: check out each
revision, then process every benchmark. -/
def processCommits (cfg : Benchmarker) (env : Env) (outDir : FsPath) :
    List String → FS → Option (FS × List Event)
  | [], fs => some (fs, [])
  | sha :: rest, fs =>
    match processBenches cfg env outDir sha cfg.benchmarks fs with
    | none => none
    | some (fs1, e1) =>
      match processCommits cfg env outDir rest fs1 with
      | none => none
      | some (fs2, e2) => some (fs2, Event.gitCheckout sha :: (e1 ++ e2))

/-- Subprocesses of `Benchmarker::clone_repo`: checkout main and pull when
the working copy exists, clone otherwise. -/
def cloneSpawns (env : Env) : List Event :=
  if env.repoDirExists then [Event.gitCheckoutMain, Event.gitPull] else [Event.gitClone]

/-- Truncation of the revision list by `num_commits`
(`take(num_commits.unwrap_or(usize::MAX))`). -/
def takeCommits (cfg : Benchmarker) (commits : List String) : List String :=
  match cfg.num_commits with
  | none => commits
  | some n => commits.take n

/-- Embedding of `Benchmarker::run`: clone or pull, list revisions, walk
them, and run one final plot pass.  Returns the final cache and the trace
of spawned subprocesses, or `none` if a preparation step panicked. -/
def Benchmarker.run (cfg : Benchmarker) (env : Env) (fs : FS) :
    Option (FS × List Event) :=
  match processCommits cfg env outRoot (takeCommits cfg env.commits) fs with
  | none => none
  | some (fs', ev) =>
    some (fs', cloneSpawns env ++ [Event.revList] ++ ev ++ plotSpawns fs')

/-- Final cache of a sweep, the initial cache if the sweep panicked. -/
def sweepFs (cfg : Benchmarker) (env : Env) (fs : FS) : FS :=
  match cfg.run env fs with
  | some (fs', _) => fs'
  | none => fs

/-- Subprocess trace of a sweep, empty if the sweep panicked. -/
def sweepEvents (cfg : Benchmarker) (env : Env) (fs : FS) : List Event :=
  match cfg.run env fs with
  | some (_, ev) => ev
  | none => []

/-- Events that spawn a preparation command or the benchmark backend. -/
def isMeasureEvent : Event → Bool
  | .prepare _ => true
  | .hyperfine _ => true
  | _ => false

/-- One entry of a result file (`ResultEntry` in the source): serde leaves
`times` as `None` when the field is missing. -/
structure ResultEntry where
  command : String
  times : Option (List Rat)

/-- A deserialized result file (`ResultFile` in the source). -/
structure ResultFile where
  results : List ResultEntry

/-- One flattened plot row (`PlotData` in the source). -/
structure PlotData where
  git_sha : String
  git_msg : String
  git_date : String
  command : String
  time : Option Rat

/-- Field lookup in a JSON object, first binding wins. -/
def getField (fields : List (String × Json)) (k : String) : Option Json :=
  match fields with
  | [] => none
  | (k', v) :: rest => if k' = k then some v else getField rest k

/-- String extraction from a JSON value. -/
def asStr : Json → Option String
  | .str s => some s
  | _ => none

/-- Number extraction from a JSON value. -/
def asNum : Json → Option Rat
  | .num q => some q
  | _ => none

/-- Option-valued traversal used by the deserializer. -/
def mapMOpt (f : α → Option β) : List α → Option (List β)
  | [] => some []
  | x :: xs =>
    match f x with
    | none => none
    | some y =>
      match mapMOpt f xs with
      | none => none
      | some ys => some (y :: ys)

/-- Deserialization of the `times` array. -/
def parseTimes : Json → Option (List Rat)
  | .arr l => mapMOpt asNum l
  | _ => none

/-- Deserialization of one `ResultEntry`: `command` is required, `times` is
optional, unknown fields (such as the failure record's git metadata) are
ignored. -/
def parseEntry : Json → Option ResultEntry
  | .obj fields =>
    match getField fields "command" with
    | none => none
    | some cj =>
      match asStr cj with
      | none => none
      | some c =>
        match getField fields "times" with
        | none => some ⟨c, none⟩
        | some tj =>
          match parseTimes tj with
          | none => none
          | some ts => some ⟨c, some ts⟩
  | _ => none

/-- Deserialization of a whole result file, `serde_json::from_reader`. -/
def parseResultFile : Json → Option ResultFile
  | .obj fields =>
    match getField fields "results" with
    | some (.arr l) =>
      match mapMOpt parseEntry l with
      | none => none
      | some es => some ⟨es⟩
    | _ => none
  | _ => none

/-- Expansion of one result entry into plot rows: one row per timing sample,
or a single row without a time for a failure entry. -/
def entryRows (env : Env) (sha : String) (e : ResultEntry) : List PlotData :=
  match e.times with
  | some ts => ts.map (fun t =>
      ⟨sha, env.commitMsgOut sha, env.commitDateOut sha, e.command, some t⟩)
  | none => [⟨sha, env.commitMsgOut sha, env.commitDateOut sha, e.command, none⟩]

/-- Rows contributed by one walked file: none when deserialization fails. -/
def fileRows (env : Env) (name : String) (parsed : Option ResultFile) : List PlotData :=
  match parsed with
  | none => []
  | some rf => (rf.results.map (entryRows env (fileSha name))).flatten

/-- The `.json` files that `Benchmarker::plot` walks, with their names. -/
def plotFiles (fs : FS) : List (String × Json) :=
  (fs.filter (fun pj => isJsonName (lastName pj.1))).map
    (fun pj => (lastName pj.1, pj.2))

/-- Plot rows produced by one aggregation pass over the cache. -/
def plotRowsOf (env : Env) (fs : FS) : List PlotData :=
  ((plotFiles fs).map (fun f => fileRows env f.1 (parseResultFile f.2))).flatten

/-- File names reported by the `eprintln!` diagnostic for files that failed
to deserialize during aggregation. -/
def plotDiags (fs : FS) : List String :=
  ((plotFiles fs).filter (fun f => (parseResultFile f.2).isNone)).map (fun f => f.1)

/-- Success record as exported by the benchmark backend
(`{"results": [{"command": ..., "times": [...]}]}`). -/
def successJson (command : String) (ts : List Rat) : Json :=
  Json.obj [("results", Json.arr [Json.obj [
    ("command", Json.str command),
    ("times", Json.arr (ts.map Json.num))]])]

/-- Outcome of attempting to spawn and wait on one subprocess. -/
inductive SpawnOutcome where
  | failed
  | ran (exitCode : Nat) (stdout : String)

/-- Embedding of `Benchmarker::checkout`: the exit status returned by
`wait()` is dropped, only a spawn error propagates. -/
def checkout : SpawnOutcome → Except String Unit
  | .failed => .error "io"
  | .ran _ _ => .ok ()

/-- Embedding of `Benchmarker::commit_date`: the captured stdout is returned
whatever the exit status was. -/
def commit_date : SpawnOutcome → Except String String
  | .failed => .error "io"
  | .ran _ out => .ok out

/-- Embedding of `Benchmarker::commit_message`, identical in structure to
`commit_date`. -/
def commit_message : SpawnOutcome → Except String String
  | .failed => .error "io"
  | .ran _ out => .ok out

/-- Concrete configuration whose preparation list holds a failing command
followed by a whitespace-only command. -/
def cfg10 : Benchmarker :=
  { repository := "r", prepare := ["mk", " "], benchmarks := ["b"],
    repo_dir := "d", num_commits := none }

/-- Environment in which every preparation command exits non-zero. -/
def env10 : Env :=
  { repoDirExists := true, commits := ["c1"], checkoutExit := fun _ => true,
    prepareExit := fun _ _ => false, hyperfineExit := fun _ _ => true,
    hyperfineOut := fun b _ => successJson b [1], commitMsgOut := fun _ => "m",
    commitDateOut := fun _ => "d" }

/-- Shape of one deserializable Success record for the aggregation claim. -/
structure SuccessSpec where
  name : String
  command : String
  samples : List Rat

/-- Shape of one Failure record for the aggregation claim. -/
structure FailureSpec where
  name : String
  command : String
  sha : String
  msg : String
  date : String

/-- A cache directory holding the given Success and Failure records. -/
def mkCache (succs : List SuccessSpec) (fails : List FailureSpec) : FS :=
  succs.map (fun s => (["results", s.name ++ ".json"], successJson s.command s.samples))
  ++ fails.map (fun f => (["results", f.name ++ ".json"], failureJson f.command f.sha f.msg f.date))

/-- The sixteen lowercase hexadecimal digit characters. -/
def lowerHexChars : List Char := "0123456789abcdef".data

/-- Minimal configuration: one benchmark, no preparation commands. -/
def cfg1 : Benchmarker :=
  { repository := "r", prepare := [], benchmarks := ["b"], repo_dir := "d",
    num_commits := none }

/-- Healthy environment with a single revision `c1`. -/
def env1 : Env :=
  { repoDirExists := true, commits := ["c1"], checkoutExit := fun _ => true,
    prepareExit := fun _ _ => true, hyperfineExit := fun _ _ => true,
    hyperfineOut := fun b _ => successJson b [1], commitMsgOut := fun _ => "m",
    commitDateOut := fun _ => "d" }

/-- Cache already holding the record of the only (benchmark, revision)
pair, at its `.json` path. -/
def fsJson : FS := [(recordPath outRoot "b" "c1", failureJson "b" "c1" "m" "d")]

/-- Cache holding a record for the only pair, but at a `.result` path. -/
def fsResult : FS :=
  [(outRoot ++ [hexSha256 "b", "c1" ++ ".result"], failureJson "b" "c1" "m" "d")]

/-- Events that spawn the benchmark backend. -/
def isHyperfine : Event → Bool
  | .hyperfine _ => true
  | _ => false

/-- Invariant of the failing sweep: every record path of a configured
benchmark is either absent or holds that pair's failure record. -/
def failInv (cfg : Benchmarker) (env : Env) (fs : FS) : Prop :=
  ∀ b ∈ cfg.benchmarks, ∀ sha : String,
    FS.lookup fs (recordPath outRoot b sha) = none
    ∨ FS.lookup fs (recordPath outRoot b sha)
        = some (failureJson b sha (env.commitMsgOut sha) (env.commitDateOut sha))

/-- Configuration with one failing-prepare benchmark for the C3 witness. -/
def cfg3 : Benchmarker :=
  { repository := "r", prepare := ["mk"], benchmarks := ["b"], repo_dir := "d",
    num_commits := none }

/-- Sanity check of the digest embedding on the standard empty-string vector. -/
theorem sha256_testvector_empty :
    hexSha256 "" = "e3b0c44298fc1c149afbf4c8996fb92427ae41e4649b934ca495991b7852b855" := by
  decide

/-- Sanity check of the digest embedding on the standard "abc" vector. -/
theorem sha256_testvector_abc :
    hexSha256 "abc" = "ba7816bf8f01cfea414140de5dae2223b00361a396177a9cb410ff61f20015ad" := by
  decide

/-!
Helper lemmas about the cache, the plot spawns and the preparation step.
-/

theorem lookup_append_some (fs gs : FS) (p : FsPath) (j : Json)
    (h : FS.lookup fs p = some j) : FS.lookup (fs ++ gs) p = some j := by
  induction fs with
  | nil => simp [FS.lookup] at h
  | cons pj rest ih =>
    obtain ⟨q, v⟩ := pj
    simp only [FS.lookup, List.cons_append] at h ⊢
    by_cases hq : q = p
    · simpa [hq] using h
    · simp only [hq, if_false] at h ⊢
      exact ih h

theorem lookup_append_none (fs gs : FS) (p : FsPath)
    (h : FS.lookup fs p = none) : FS.lookup (fs ++ gs) p = FS.lookup gs p := by
  induction fs with
  | nil => rfl
  | cons pj rest ih =>
    obtain ⟨q, v⟩ := pj
    simp only [FS.lookup, List.cons_append] at h ⊢
    by_cases hq : q = p
    · simp [hq] at h
    · simp only [hq, if_false] at h ⊢
      exact ih h

theorem lookup_single (p : FsPath) (j : Json) : FS.lookup [(p, j)] p = some j := by
  simp [FS.lookup]

/-- Plot refreshes only spawn `git log` metadata fetches, never a
preparation command or the benchmark backend. -/
theorem plotSpawns_not_measure (fs : FS) :
    ∀ e ∈ plotSpawns fs, isMeasureEvent e = false := by
  intro e he
  simp only [plotSpawns, List.mem_flatten, List.mem_map] at he
  obtain ⟨l, ⟨pj, _, rfl⟩, hel⟩ := he
  simp only [List.mem_cons, List.not_mem_nil, or_false] at hel
  rcases hel with rfl | rfl <;> rfl

theorem run_prepare_total (env : Env) (sha : String) (l : List String)
    (hw : ∀ c ∈ l, words c ≠ []) :
    ∃ ok ev, run_prepare env sha l = some (ok, ev) := by
  induction l with
  | nil => exact ⟨true, [], rfl⟩
  | cons c rest ih =>
    have hc : words c ≠ [] := hw c (by simp)
    obtain ⟨ok, ev, hr⟩ := ih (fun x hx => hw x (by simp [hx]))
    simp only [run_prepare]
    cases hcw : words c with
    | nil => exact absurd hcw hc
    | cons a as =>
      by_cases hx : env.prepareExit sha c
      · exact ⟨ok, Event.prepare c :: ev, by simp [hx, hr]⟩
      · exact ⟨false, [Event.prepare c], by simp [hx]⟩

theorem run_prepare_fail_head (env : Env) (sha c : String) (rest : List String)
    (hw : words c ≠ []) (hf : env.prepareExit sha c = false) :
    run_prepare env sha (c :: rest) = some (false, [Event.prepare c]) := by
  simp only [run_prepare]
  cases hcw : words c with
  | nil => exact absurd hcw hw
  | cons a as => simp [hf]

/-!
Claim C9: the checkout and metadata wrappers ignore the subprocess's exit
status, and the whole sweep is insensitive to the exit status of
`git checkout <sha>`.
-/

theorem run_prepare_env_checkoutExit (env : Env) (f : String → Bool)
    (sha : String) (l : List String) :
    run_prepare { env with checkoutExit := f } sha l = run_prepare env sha l := by
  induction l with
  | nil => rfl
  | cons c rest ih => simp only [run_prepare, ih]

theorem processPair_env_checkoutExit (cfg : Benchmarker) (env : Env)
    (f : String → Bool) (outDir : FsPath) (sha bench : String) (fs : FS) :
    processPair cfg { env with checkoutExit := f } outDir sha bench fs
      = processPair cfg env outDir sha bench fs := by
  simp only [processPair, run_prepare_env_checkoutExit]

theorem processBenches_env_checkoutExit (cfg : Benchmarker) (env : Env)
    (f : String → Bool) (outDir : FsPath) (sha : String) (bs : List String) (fs : FS) :
    processBenches cfg { env with checkoutExit := f } outDir sha bs fs
      = processBenches cfg env outDir sha bs fs := by
  induction bs generalizing fs with
  | nil => rfl
  | cons b rest ih =>
    simp only [processBenches, processPair_env_checkoutExit]
    cases processPair cfg env outDir sha b fs with
    | none => rfl
    | some r => simp only [ih]

theorem processCommits_env_checkoutExit (cfg : Benchmarker) (env : Env)
    (f : String → Bool) (outDir : FsPath) (l : List String) (fs : FS) :
    processCommits cfg { env with checkoutExit := f } outDir l fs
      = processCommits cfg env outDir l fs := by
  induction l generalizing fs with
  | nil => rfl
  | cons sha rest ih =>
    simp only [processCommits, processBenches_env_checkoutExit]
    cases processBenches cfg env outDir sha cfg.benchmarks fs with
    | none => rfl
    | some r => simp only [ih]

/-- C9: the checkout operation and the metadata fetches return success
whenever the git subprocess could be spawned and waited on, regardless of
its exit status: `checkout` discards the status, `commit_date` and
`commit_message` return the captured stdout (possibly empty) unexamined;
consequently the sweep's outcome — its final cache and its subprocess
trace — is unchanged under any reassignment of the exit statuses of
`git checkout <sha>`, so a failed checkout neither aborts the sweep nor
produces a failure record. -/
theorem C9_exit_status_ignored :
    (∀ (ec : Nat) (out : String), checkout (SpawnOutcome.ran ec out) = Except.ok ())
    ∧ (∀ (ec : Nat) (out : String), commit_date (SpawnOutcome.ran ec out) = Except.ok out)
    ∧ (∀ (ec : Nat) (out : String), commit_message (SpawnOutcome.ran ec out) = Except.ok out)
    ∧ (∀ (cfg : Benchmarker) (env : Env) (f : String → Bool) (fs : FS),
        cfg.run { env with checkoutExit := f } fs = cfg.run env fs) := by
  refine ⟨fun _ _ => rfl, fun _ _ => rfl, fun _ _ => rfl, fun cfg env f fs => ?_⟩
  have hclone : cloneSpawns { env with checkoutExit := f } = cloneSpawns env := rfl
  simp only [Benchmarker.run, processCommits_env_checkoutExit, hclone]

/-- C10 counterexample: `cfg10.prepare` contains the whitespace-only
command `" "`, yet running the preparation step does not panic — the
earlier command `"mk"` exits non-zero and `bail!` returns an error before
the empty argument vector is ever indexed.  So the claim's unconditional
"panics" is false as stated. -/
theorem C10_counterexample :
    " " ∈ cfg10.prepare ∧ words " " = []
    ∧ run_prepare env10 "c1" cfg10.prepare = some (false, [Event.prepare "mk"]) := by
  decide

/-- C10 (amended): if every preparation command before the whitespace-only
command exits zero (in particular when it comes first), `run_prepare`
reaches it, indexes `args[0]` of the empty vector and panics (`none`)
rather than returning an error; the enclosing benchmark attempt aborts the
process instead of recording a failure. -/
theorem C10_whitespace_panic (env : Env) (sha : String) (pre rest : List String)
    (c : String) (hws : words c = [])
    (hpre : ∀ p ∈ pre, words p ≠ [] ∧ env.prepareExit sha p = true) :
    run_prepare env sha (pre ++ c :: rest) = none
    ∧ (∀ (cfg : Benchmarker) (outDir : FsPath) (bench : String) (fs : FS),
        cfg.prepare = pre ++ c :: rest →
        FS.lookup fs (recordPath outDir bench sha) = none →
        processPair cfg env outDir sha bench fs = none) := by
  have hrun : run_prepare env sha (pre ++ c :: rest) = none := by
    induction pre with
    | nil => simp only [List.nil_append, run_prepare, hws]
    | cons q qs ih =>
      obtain ⟨hq, hexit⟩ := hpre q (by simp)
      simp only [List.cons_append, run_prepare]
      cases hqw : words q with
      | nil => exact absurd hqw hq
      | cons a as =>
        simp only [hexit, if_true, List.append_eq,
          ih (fun p hp => hpre p (by simp [hp]))]
  refine ⟨hrun, fun cfg outDir bench fs hcfg habs => ?_⟩
  simp only [processPair, habs, Option.isSome_none, Bool.false_eq_true, if_false,
    hcfg, hrun]

theorem plotFiles_append (a b : FS) : plotFiles (a ++ b) = plotFiles a ++ plotFiles b := by
  simp [plotFiles, List.filter_append]

theorem plotRowsOf_append (env : Env) (a b : FS) :
    plotRowsOf env (a ++ b) = plotRowsOf env a ++ plotRowsOf env b := by
  simp [plotRowsOf, plotFiles_append]

theorem isJsonName_append (x : String) : isJsonName (x ++ ".json") = true := by
  have hdata : (x ++ ".json").data = x.data ++ jsonChars := by
    rw [String.data_append]; rfl
  simp only [isJsonName, hdata, List.reverse_append]
  rw [List.isPrefixOf_iff_prefix]
  exact List.prefix_append _ _

theorem lastName_pair (a b : String) : lastName [a, b] = b := rfl

theorem plotFiles_cons_json (pj : FsPath × Json) (fs : FS)
    (h : isJsonName (lastName pj.1) = true) :
    plotFiles (pj :: fs) = (lastName pj.1, pj.2) :: plotFiles fs := by
  simp [plotFiles, List.filter_cons, h]

theorem plotRowsOf_cons_json (env : Env) (pj : FsPath × Json) (fs : FS)
    (h : isJsonName (lastName pj.1) = true) :
    plotRowsOf env (pj :: fs)
      = fileRows env (lastName pj.1) (parseResultFile pj.2) ++ plotRowsOf env fs := by
  simp [plotRowsOf, plotFiles_cons_json _ _ h]

theorem mapM_asNum (ts : List Rat) : mapMOpt asNum (ts.map Json.num) = some ts := by
  induction ts with
  | nil => rfl
  | cons t ts ih => simp [mapMOpt, asNum, ih]

theorem parse_successJson (c : String) (ts : List Rat) :
    parseResultFile (successJson c ts) = some ⟨[⟨c, some ts⟩]⟩ := by
  simp [parseResultFile, successJson, getField, parseEntry, asStr, parseTimes,
    mapMOpt, mapM_asNum]

theorem parse_failureJson (c s m d : String) :
    parseResultFile (failureJson c s m d) = some ⟨[⟨c, none⟩]⟩ := rfl

theorem fileRows_entry_some (env : Env) (name c : String) (ts : List Rat) :
    (fileRows env name (some ⟨[⟨c, some ts⟩]⟩)).length = ts.length := by
  simp [fileRows, entryRows]

theorem fileRows_entry_none (env : Env) (name c : String) :
    (fileRows env name (some ⟨[⟨c, none⟩]⟩)).length = 1 := by
  simp [fileRows, entryRows]

/-- C7: a cache directory of K deserializable Success records with sample
lists of sizes s1..sK and F Failure records aggregates to exactly
(s1 + ... + sK) + F plot rows: each Success record with N samples expands
to N rows with one timing each, each Failure record to one row without a
timing. -/
theorem C7_aggregation_count (env : Env) (succs : List SuccessSpec)
    (fails : List FailureSpec) :
    (plotRowsOf env (mkCache succs fails)).length
      = (succs.map (fun s => s.samples.length)).sum + fails.length := by
  unfold mkCache
  rw [plotRowsOf_append, List.length_append]
  have hs : ∀ l : List SuccessSpec,
      (plotRowsOf env (l.map (fun s =>
        (["results", s.name ++ ".json"], successJson s.command s.samples)))).length
        = (l.map (fun s => s.samples.length)).sum := by
    intro l
    induction l with
    | nil => rfl
    | cons s rest ih =>
      rw [List.map_cons, plotRowsOf_cons_json _ _ _ (by simpa using isJsonName_append s.name)]
      simp only [List.length_append, ih, parse_successJson, List.map_cons, List.sum_cons]
      rw [fileRows_entry_some]
  have hf : ∀ l : List FailureSpec,
      (plotRowsOf env (l.map (fun f =>
        (["results", f.name ++ ".json"], failureJson f.command f.sha f.msg f.date)))).length
        = l.length := by
    intro l
    induction l with
    | nil => rfl
    | cons f rest ih =>
      rw [List.map_cons, plotRowsOf_cons_json _ _ _ (by simpa using isJsonName_append f.name)]
      simp only [List.length_append, ih, parse_failureJson, List.length_cons]
      rw [fileRows_entry_none]
      omega
  rw [hs, hf]

/-- C8: a cache file that fails to deserialize contributes no plot rows —
the aggregation over the remaining files is unchanged — and its name is
reported by the diagnostic; the pass does not abort. -/
theorem C8_corrupt_skipped (env : Env) (pre post : FS) (p : FsPath) (j : Json)
    (hbad : parseResultFile j = none) (hname : isJsonName (lastName p) = true) :
    plotRowsOf env (pre ++ (p, j) :: post) = plotRowsOf env pre ++ plotRowsOf env post
    ∧ lastName p ∈ plotDiags (pre ++ (p, j) :: post) := by
  constructor
  · rw [plotRowsOf_append, plotRowsOf_cons_json _ _ _ hname, hbad]
    rfl
  · apply List.mem_map.mpr
    refine ⟨(lastName p, j), ?_, rfl⟩
    apply List.mem_filter.mpr
    refine ⟨?_, by simp [hbad]⟩
    rw [plotFiles_append, plotFiles_cons_json _ _ hname]
    exact List.mem_append_right _ (List.mem_cons_self _ _)

/-- C8 witness: a corrupt `.json` entry between two empty cache segments is
skipped and diagnosed. -/
theorem C8_corrupt_skipped_witness :
    plotRowsOf env10 ([] ++ (["results", "x", "bad.json"], Json.str "oops") :: [])
      = plotRowsOf env10 [] ++ plotRowsOf env10 []
    ∧ lastName ["results", "x", "bad.json"]
        ∈ plotDiags ([] ++ (["results", "x", "bad.json"], Json.str "oops") :: []) :=
  C8_corrupt_skipped env10 [] [] ["results", "x", "bad.json"] (Json.str "oops")
    rfl (by decide)

theorem hexDigitChar_mem : ∀ n : Fin 16, hexDigitChar n ∈ lowerHexChars := by decide

theorem hexDigitChar_inj : ∀ a b : Fin 16, hexDigitChar a = hexDigitChar b → a = b := by
  decide

theorem sha256_bytes_lt (msg : List Nat) : ∀ b ∈ sha256 msg, b < 256 := by
  intro b hb
  simp only [sha256, List.mem_flatten, List.mem_map] at hb
  obtain ⟨l, ⟨w, _, rfl⟩, hbl⟩ := hb
  simp only [beBytes, List.mem_map, List.mem_range] at hbl
  obtain ⟨i, _, rfl⟩ := hbl
  exact Nat.mod_lt _ (by omega)

theorem hexByte_inj (a b : Nat) (ha : a < 256) (hb : b < 256)
    (h : hexByte a = hexByte b) : a = b := by
  have hd1 : a / 16 < 16 := Nat.div_lt_of_lt_mul (by omega)
  have hd2 : b / 16 < 16 := Nat.div_lt_of_lt_mul (by omega)
  have hm1 : a % 16 < 16 := Nat.mod_lt _ (by omega)
  have hm2 : b % 16 < 16 := Nat.mod_lt _ (by omega)
  simp only [hexByte, List.cons.injEq, and_true] at h
  obtain ⟨h1, h2⟩ := h
  have e1 := hexDigitChar_inj ⟨a / 16, hd1⟩ ⟨b / 16, hd2⟩ h1
  have e2 := hexDigitChar_inj ⟨a % 16, hm1⟩ ⟨b % 16, hm2⟩ h2
  have q1 : a / 16 = b / 16 := congrArg Fin.val e1
  have q2 : a % 16 = b % 16 := congrArg Fin.val e2
  have := Nat.div_add_mod a 16
  have := Nat.div_add_mod b 16
  omega

theorem hexBytes_inj : ∀ xs ys : List Nat, (∀ b ∈ xs, b < 256) → (∀ b ∈ ys, b < 256) →
    hexBytes xs = hexBytes ys → xs = ys := by
  intro xs
  induction xs with
  | nil =>
    intro ys _ _ h
    cases ys with
    | nil => rfl
    | cons y ys => simp [hexBytes, hexByte] at h
  | cons x xs ih =>
    intro ys hx hy h
    cases ys with
    | nil => simp [hexBytes, hexByte] at h
    | cons y ys =>
      simp only [hexBytes, List.map_cons, List.flatten_cons, hexByte,
        List.cons_append, List.nil_append, List.cons.injEq] at h
      obtain ⟨h1, h2, h3⟩ := h
      have hxy : x = y := by
        refine hexByte_inj x y (hx x (by simp)) (hy y (by simp)) ?_
        simp [hexByte, h1, h2]
      have htail : xs = ys := by
        refine ih ys (fun b hb => hx b (by simp [hb])) (fun b hb => hy b (by simp [hb])) ?_
        exact h3
      rw [hxy, htail]

theorem hexSha256_chars (s : String) : ∀ c ∈ (hexSha256 s).data, c ∈ lowerHexChars := by
  intro c hc
  have hb := sha256_bytes_lt (utf8Str s)
  have hc' : c ∈ hexBytes (sha256 (utf8Str s)) := hc
  simp only [hexBytes, List.mem_flatten, List.mem_map] at hc'
  obtain ⟨l, ⟨b, hbmem, rfl⟩, hcl⟩ := hc'
  have hblt : b < 256 := hb b hbmem
  simp only [hexByte, List.mem_cons, List.not_mem_nil, or_false] at hcl
  rcases hcl with rfl | rfl
  · exact hexDigitChar_mem ⟨b / 16, Nat.div_lt_of_lt_mul (by omega)⟩
  · exact hexDigitChar_mem ⟨b % 16, Nat.mod_lt _ (by omega)⟩

theorem hexSha256_eq_iff (a b : String) :
    hexSha256 a = hexSha256 b ↔ sha256 (utf8Str a) = sha256 (utf8Str b) := by
  constructor
  · intro h
    have hd : hexBytes (sha256 (utf8Str a)) = hexBytes (sha256 (utf8Str b)) :=
      congrArg String.data h
    exact hexBytes_inj _ _ (sha256_bytes_lt _) (sha256_bytes_lt _) hd
  · intro h
    simp [hexSha256, h]

/-- C5: every cached record of a (benchmark, revision) pair lives at
`<outputRoot>/<hex-sha256(benchmarkCommand)>/<revisionId>.json`; the
directory component is the lowercase hexadecimal SHA-256 digest of the
exact command string, so byte-identical commands share their identifier
and two identifiers coincide exactly when the underlying digests collide. -/
theorem C5_cache_key (outDir : FsPath) (bench sha b2 : String) :
    recordPath outDir bench sha = outDir ++ [hexSha256 bench, sha ++ ".json"]
    ∧ hexSha256 bench = String.mk (hexBytes (sha256 (utf8Str bench)))
    ∧ (hexSha256 bench).data.all (fun c => decide (c ∈ lowerHexChars)) = true
    ∧ (hexSha256 bench = hexSha256 b2
        ↔ sha256 (utf8Str bench) = sha256 (utf8Str b2)) := by
  refine ⟨rfl, rfl, ?_, hexSha256_eq_iff bench b2⟩
  refine List.all_eq_true.mpr (fun c hc => ?_)
  exact decide_eq_true (hexSha256_chars bench c hc)

/-- C4: when preparation fails, or preparation succeeds and the benchmark
backend exits non-zero, the record persisted for the pair is exactly the
JSON document with one `results` element carrying the command string, the
revision id, and the revision's log message and timestamp — fetched on
demand by two `git log` spawns. -/
theorem C4_failure_record_shape (cfg : Benchmarker) (env : Env) (outDir : FsPath)
    (sha bench : String) (fs : FS)
    (habsent : FS.lookup fs (recordPath outDir bench sha) = none)
    (hfail : (∃ pev, run_prepare env sha cfg.prepare = some (false, pev))
      ∨ ((∃ pev, run_prepare env sha cfg.prepare = some (true, pev))
          ∧ env.hyperfineExit bench sha = false)) :
    ∃ fs' ev, processPair cfg env outDir sha bench fs = some (fs', ev)
      ∧ FS.lookup fs' (recordPath outDir bench sha)
          = some (Json.obj [("results", Json.arr [Json.obj [
              ("command", Json.str bench),
              ("git_sha", Json.str sha),
              ("git_msg", Json.str (env.commitMsgOut sha)),
              ("git_date", Json.str (env.commitDateOut sha))]])])
      ∧ Event.gitLogMsg sha ∈ ev ∧ Event.gitLogDate sha ∈ ev := by
  have hnone : (FS.lookup fs (recordPath outDir bench sha)).isSome = false := by
    simp [habsent]
  have hlook : FS.lookup
      (fs ++ [(recordPath outDir bench sha,
        failureJson bench sha (env.commitMsgOut sha) (env.commitDateOut sha))])
      (recordPath outDir bench sha)
      = some (failureJson bench sha (env.commitMsgOut sha) (env.commitDateOut sha)) := by
    rw [lookup_append_none _ _ _ habsent, lookup_single]
  rcases hfail with ⟨pev, hrp⟩ | ⟨⟨pev, hrp⟩, hh⟩
  · have hstep : processPair cfg env outDir sha bench fs
        = some (fs ++ [(recordPath outDir bench sha,
            failureJson bench sha (env.commitMsgOut sha) (env.commitDateOut sha))],
          (pev ++ [Event.gitLogMsg sha, Event.gitLogDate sha])
            ++ plotSpawns (fs ++ [(recordPath outDir bench sha,
                failureJson bench sha (env.commitMsgOut sha) (env.commitDateOut sha))])) := by
      simp only [processPair, hnone, Bool.false_eq_true, if_false, hrp]
    exact ⟨_, _, hstep, hlook, by simp, by simp⟩
  · have hstep : processPair cfg env outDir sha bench fs
        = some (fs ++ [(recordPath outDir bench sha,
            failureJson bench sha (env.commitMsgOut sha) (env.commitDateOut sha))],
          (pev ++ [Event.hyperfine bench, Event.gitLogMsg sha, Event.gitLogDate sha])
            ++ plotSpawns (fs ++ [(recordPath outDir bench sha,
                failureJson bench sha (env.commitMsgOut sha) (env.commitDateOut sha))])) := by
      simp only [processPair, hnone, Bool.false_eq_true, if_false, hrp, hh]
    exact ⟨_, _, hstep, hlook, by simp, by simp⟩

/-- C4 witness: with an always-failing preparation command and an empty
cache, the pair receives exactly the claimed failure document. -/
theorem C4_failure_record_shape_witness :
    ∃ fs' ev, processPair cfg10 env10 outRoot "c1" "b" [] = some (fs', ev)
      ∧ FS.lookup fs' (recordPath outRoot "b" "c1")
          = some (Json.obj [("results", Json.arr [Json.obj [
              ("command", Json.str "b"),
              ("git_sha", Json.str "c1"),
              ("git_msg", Json.str (env10.commitMsgOut "c1")),
              ("git_date", Json.str (env10.commitDateOut "c1"))]])])
      ∧ Event.gitLogMsg "c1" ∈ ev ∧ Event.gitLogDate "c1" ∈ ev :=
  C4_failure_record_shape cfg10 env10 outRoot "c1" "b" [] rfl
    (Or.inl ⟨[Event.prepare "mk"], by decide⟩)

theorem run_prepare_false_has_prepare (env : Env) (sha : String) (l : List String)
    (pev : List Event) (h : run_prepare env sha l = some (false, pev)) :
    ∃ c, Event.prepare c ∈ pev := by
  cases l with
  | nil => simp [run_prepare] at h
  | cons c rest =>
    refine ⟨c, ?_⟩
    simp only [run_prepare] at h
    cases hw : words c with
    | nil => rw [hw] at h; simp at h
    | cons a as =>
      rw [hw] at h
      by_cases hx : env.prepareExit sha c
      · rw [if_pos hx] at h
        cases hr : run_prepare env sha rest with
        | none => rw [hr] at h; simp at h
        | some pr =>
          rw [hr] at h
          obtain ⟨ok, evts⟩ := pr
          simp only [Option.some.injEq, Prod.mk.injEq] at h
          rw [← h.2]
          simp
      · rw [if_neg hx] at h
        simp only [Option.some.injEq, Prod.mk.injEq] at h
        rw [← h.2]
        simp

/-- C6 counterexample: a record stored at the pair's `.result` path is
present, yet the sweep still invokes the benchmark backend for the pair —
the membership check does not consult `.result` paths, so the claim's
stated layout is false. -/
theorem C6_counterexample :
    (FS.lookup fsResult (outRoot ++ [hexSha256 "b", "c1" ++ ".result"])).isSome = true
    ∧ Event.hyperfine "b" ∈ sweepEvents cfg1 env1 fsResult := by
  decide

/-- C6 (amended): the membership check of the cache tests file existence at
`<output>/<benchmarkId>/<revisionId>.json` — with the `.json` extension —
and governs exactly whether the pair is measured: a pair spawns no
preparation or backend subprocess precisely when its `.json` record
exists. -/
theorem C6_membership_checks_json (cfg : Benchmarker) (env : Env) (outDir : FsPath)
    (sha bench : String) (fs fs' : FS) (ev : List Event)
    (h : processPair cfg env outDir sha bench fs = some (fs', ev)) :
    (∀ e ∈ ev, isMeasureEvent e = false)
      ↔ (FS.lookup fs (outDir ++ [hexSha256 bench, sha ++ ".json"])).isSome := by
  by_cases hhit : (FS.lookup fs (recordPath outDir bench sha)).isSome
  · have hstep : processPair cfg env outDir sha bench fs
        = some (fs, [] ++ plotSpawns fs) := by
      simp only [processPair, hhit, if_true]
    have hinj := h.symm.trans hstep
    simp only [Option.some.injEq, Prod.mk.injEq, List.nil_append] at hinj
    obtain ⟨-, rfl⟩ := hinj
    exact ⟨fun _ => hhit, fun _ => plotSpawns_not_measure fs⟩
  · have hne : (FS.lookup fs (recordPath outDir bench sha)).isSome = false := by
      simpa using hhit
    have hmem : ∃ e ∈ ev, isMeasureEvent e = true := by
      cases hr : run_prepare env sha cfg.prepare with
      | none =>
        have hstep : processPair cfg env outDir sha bench fs = none := by
          simp only [processPair, hne, Bool.false_eq_true, if_false, hr]
        rw [hstep] at h
        cases h
      | some pr =>
        obtain ⟨ok, pev⟩ := pr
        cases ok with
        | true =>
          by_cases hh : env.hyperfineExit bench sha
          · have hstep : processPair cfg env outDir sha bench fs
                = some (fs ++ [(recordPath outDir bench sha, env.hyperfineOut bench sha)],
                  (pev ++ [Event.hyperfine bench]) ++ plotSpawns
                    (fs ++ [(recordPath outDir bench sha, env.hyperfineOut bench sha)])) := by
              simp only [processPair, hne, Bool.false_eq_true, if_false, hr, hh, if_true]
            have hinj := h.symm.trans hstep
            simp only [Option.some.injEq, Prod.mk.injEq] at hinj
            obtain ⟨-, rfl⟩ := hinj
            exact ⟨Event.hyperfine bench, by simp, rfl⟩
          · have hstep : processPair cfg env outDir sha bench fs
                = some (fs ++ [(recordPath outDir bench sha,
                    failureJson bench sha (env.commitMsgOut sha) (env.commitDateOut sha))],
                  (pev ++ [Event.hyperfine bench, Event.gitLogMsg sha, Event.gitLogDate sha])
                    ++ plotSpawns (fs ++ [(recordPath outDir bench sha,
                        failureJson bench sha (env.commitMsgOut sha) (env.commitDateOut sha))])) := by
              simp only [processPair, hne, Bool.false_eq_true, if_false, hr]
              rw [if_neg hh]
            have hinj := h.symm.trans hstep
            simp only [Option.some.injEq, Prod.mk.injEq] at hinj
            obtain ⟨-, rfl⟩ := hinj
            exact ⟨Event.hyperfine bench, by simp, rfl⟩
        | false =>
          obtain ⟨c, hc⟩ := run_prepare_false_has_prepare env sha cfg.prepare pev hr
          have hstep : processPair cfg env outDir sha bench fs
              = some (fs ++ [(recordPath outDir bench sha,
                  failureJson bench sha (env.commitMsgOut sha) (env.commitDateOut sha))],
                (pev ++ [Event.gitLogMsg sha, Event.gitLogDate sha])
                  ++ plotSpawns (fs ++ [(recordPath outDir bench sha,
                      failureJson bench sha (env.commitMsgOut sha) (env.commitDateOut sha))])) := by
            simp only [processPair, hne, Bool.false_eq_true, if_false, hr]
          have hinj := h.symm.trans hstep
          simp only [Option.some.injEq, Prod.mk.injEq] at hinj
          obtain ⟨-, rfl⟩ := hinj
          exact ⟨Event.prepare c, by simp [hc], rfl⟩
    constructor
    · intro hall
      obtain ⟨e, he, hm⟩ := hmem
      rw [hall e he] at hm
      cases hm
    · intro hr
      have hne' : (FS.lookup fs (outDir ++ [hexSha256 bench, sha ++ ".json"])).isSome
          = false := hne
      rw [hne'] at hr
      cases hr

/-- C6 witness: with the pair's `.json` record present, the membership
check succeeds and the pair spawns no measurement subprocess. -/
theorem C6_membership_checks_json_witness :
    (∀ e ∈ plotSpawns fsJson, isMeasureEvent e = false)
      ↔ (FS.lookup fsJson (outRoot ++ [hexSha256 "b", "c1" ++ ".json"])).isSome :=
  C6_membership_checks_json cfg1 env1 outRoot "c1" "b" fsJson fsJson (plotSpawns fsJson) rfl

/-- C1 counterexample: with every (benchmark, revision) pair already
cached, a second sweep still spawns subprocesses — the per-revision
`git checkout` and the metadata fetches of the plot refresh — so "no
subprocess is spawned" and "no new subprocess invocations on the second
run" are false as stated. -/
theorem C1_counterexample :
    (FS.lookup fsJson (recordPath outRoot "b" "c1")).isSome = true
    ∧ Event.gitCheckout "c1" ∈ sweepEvents cfg1 env1 fsJson
    ∧ Event.gitLogMsg "c1" ∈ sweepEvents cfg1 env1 fsJson := by
  decide

/-- C10 witness: a configuration whose first preparation command is
whitespace-only panics immediately. -/
theorem C10_whitespace_panic_witness :
    run_prepare env10 "c1" ([] ++ " " :: []) = none
    ∧ (∀ (cfg : Benchmarker) (outDir : FsPath) (bench : String) (fs : FS),
        cfg.prepare = [] ++ " " :: [] →
        FS.lookup fs (recordPath outDir bench "c1") = none →
        processPair cfg env10 outDir "c1" bench fs = none) :=
  C10_whitespace_panic env10 "c1" [] [] " " (by decide) (by decide)

theorem processPair_hit (cfg : Benchmarker) (env : Env) (outDir : FsPath)
    (sha bench : String) (fs : FS)
    (h : (FS.lookup fs (recordPath outDir bench sha)).isSome = true) :
    processPair cfg env outDir sha bench fs = some (fs, [] ++ plotSpawns fs) := by
  simp only [processPair, h, if_true]

theorem cloneSpawns_not_measure (env : Env) :
    ∀ e ∈ cloneSpawns env, isMeasureEvent e = false := by
  intro e he
  unfold cloneSpawns at he
  cases henv : env.repoDirExists with
  | false =>
    rw [henv] at he
    simp only [Bool.false_eq_true, if_false, List.mem_cons, List.not_mem_nil, or_false] at he
    subst he
    rfl
  | true =>
    rw [henv] at he
    simp only [if_true, List.mem_cons, List.not_mem_nil, or_false] at he
    rcases he with rfl | rfl <;> rfl

theorem processBenches_cached (cfg : Benchmarker) (env : Env) (outDir : FsPath)
    (sha : String) (bs : List String) (fs : FS)
    (hall : ∀ b ∈ bs, (FS.lookup fs (recordPath outDir b sha)).isSome = true) :
    ∃ ev, processBenches cfg env outDir sha bs fs = some (fs, ev)
      ∧ ∀ e ∈ ev, isMeasureEvent e = false := by
  induction bs with
  | nil => exact ⟨[], rfl, by simp⟩
  | cons b rest ih =>
    obtain ⟨ev, hrec, hev⟩ := ih (fun x hx => hall x (by simp [hx]))
    refine ⟨([] ++ plotSpawns fs) ++ ev, ?_, ?_⟩
    · simp only [processBenches,
        processPair_hit cfg env outDir sha b fs (hall b (by simp)), hrec]
    · intro e he
      rcases List.mem_append.mp he with h1 | h1
      · exact plotSpawns_not_measure fs e (by simpa using h1)
      · exact hev e h1

theorem processCommits_cached (cfg : Benchmarker) (env : Env) (outDir : FsPath)
    (l : List String) (fs : FS)
    (hall : ∀ sha ∈ l, ∀ b ∈ cfg.benchmarks,
      (FS.lookup fs (recordPath outDir b sha)).isSome = true) :
    ∃ ev, processCommits cfg env outDir l fs = some (fs, ev)
      ∧ ∀ e ∈ ev, isMeasureEvent e = false := by
  induction l with
  | nil => exact ⟨[], rfl, by simp⟩
  | cons sha rest ih =>
    obtain ⟨ev1, h1, hm1⟩ :=
      processBenches_cached cfg env outDir sha cfg.benchmarks fs (hall sha (by simp))
    obtain ⟨ev2, h2, hm2⟩ := ih (fun x hx => hall x (by simp [hx]))
    refine ⟨Event.gitCheckout sha :: (ev1 ++ ev2), ?_, ?_⟩
    · simp only [processCommits, h1, h2]
    · intro e he
      rcases List.mem_cons.mp he with rfl | h'
      · rfl
      · rcases List.mem_append.mp h' with h'' | h''
        · exact hm1 e h''
        · exact hm2 e h''

/-- C1 (amended): for every already-cached pair the sweep runs no
preparation command and never invokes the benchmark backend; over a fully
cached configuration a second sweep leaves the cache untouched and the
aggregated series identical — but it still spawns version-control
subprocesses (clone-or-pull, rev-list, per-revision checkout and the plot
refresh's metadata fetches), so only measurement subprocesses are absent. -/
theorem C1_cached_idempotent (cfg : Benchmarker) (env : Env) (fs : FS)
    (hall : ∀ sha ∈ takeCommits cfg env.commits, ∀ b ∈ cfg.benchmarks,
        (FS.lookup fs (recordPath outRoot b sha)).isSome = true) :
    ∃ ev, cfg.run env fs = some (fs, ev)
      ∧ (∀ e ∈ ev, isMeasureEvent e = false)
      ∧ plotRowsOf env (sweepFs cfg env fs) = plotRowsOf env fs := by
  obtain ⟨ev, h, hm⟩ :=
    processCommits_cached cfg env outRoot (takeCommits cfg env.commits) fs hall
  have hrun : cfg.run env fs
      = some (fs, cloneSpawns env ++ [Event.revList] ++ ev ++ plotSpawns fs) := by
    simp only [Benchmarker.run, h]
  refine ⟨_, hrun, ?_, ?_⟩
  · intro e he
    rcases List.mem_append.mp he with h1 | h1
    · rcases List.mem_append.mp h1 with h2 | h2
      · rcases List.mem_append.mp h2 with h3 | h3
        · exact cloneSpawns_not_measure env e h3
        · simp only [List.mem_cons, List.not_mem_nil, or_false] at h3
          subst h3
          rfl
      · exact hm e h2
    · exact plotSpawns_not_measure fs e h1
  · have hfs : sweepFs cfg env fs = fs := by simp [sweepFs, hrun]
    rw [hfs]

/-- C1 witness: one benchmark, one revision, already cached. -/
theorem C1_cached_idempotent_witness :
    ∃ ev, cfg1.run env1 fsJson = some (fsJson, ev)
      ∧ (∀ e ∈ ev, isMeasureEvent e = false)
      ∧ plotRowsOf env1 (sweepFs cfg1 env1 fsJson) = plotRowsOf env1 fsJson :=
  C1_cached_idempotent cfg1 env1 fsJson (by decide)

theorem processPair_spec (cfg : Benchmarker) (env : Env) (outDir : FsPath)
    (sha bench : String) (fs : FS)
    (hw : ∀ c ∈ cfg.prepare, words c ≠ []) :
    ∃ fs' ev, processPair cfg env outDir sha bench fs = some (fs', ev)
      ∧ (∀ p j, FS.lookup fs p = some j → FS.lookup fs' p = some j)
      ∧ (FS.lookup fs' (recordPath outDir bench sha)).isSome = true := by
  by_cases hhit : (FS.lookup fs (recordPath outDir bench sha)).isSome
  · exact ⟨fs, [] ++ plotSpawns fs, processPair_hit cfg env outDir sha bench fs hhit,
      fun p j hj => hj, hhit⟩
  · have hne : (FS.lookup fs (recordPath outDir bench sha)).isSome = false := by
      simpa using hhit
    have habs : FS.lookup fs (recordPath outDir bench sha) = none := by
      cases hl : FS.lookup fs (recordPath outDir bench sha) with
      | none => rfl
      | some j => rw [hl] at hne; cases hne
    obtain ⟨ok, pev, hr⟩ := run_prepare_total env sha cfg.prepare hw
    have hocc : ∀ content : Json,
        (FS.lookup (fs ++ [(recordPath outDir bench sha, content)])
          (recordPath outDir bench sha)).isSome = true := by
      intro content
      rw [lookup_append_none _ _ _ habs, lookup_single]
      rfl
    cases ok with
    | true =>
      by_cases hh : env.hyperfineExit bench sha
      · refine ⟨fs ++ [(recordPath outDir bench sha, env.hyperfineOut bench sha)],
          (pev ++ [Event.hyperfine bench]) ++ plotSpawns
            (fs ++ [(recordPath outDir bench sha, env.hyperfineOut bench sha)]), ?_,
          fun p j hj => lookup_append_some _ _ _ _ hj, hocc _⟩
        simp only [processPair, hne, Bool.false_eq_true, if_false, hr, hh, if_true]
      · refine ⟨fs ++ [(recordPath outDir bench sha,
            failureJson bench sha (env.commitMsgOut sha) (env.commitDateOut sha))],
          (pev ++ [Event.hyperfine bench, Event.gitLogMsg sha, Event.gitLogDate sha])
            ++ plotSpawns (fs ++ [(recordPath outDir bench sha,
                failureJson bench sha (env.commitMsgOut sha) (env.commitDateOut sha))]), ?_,
          fun p j hj => lookup_append_some _ _ _ _ hj, hocc _⟩
        simp only [processPair, hne, Bool.false_eq_true, if_false, hr]
        rw [if_neg hh]
    | false =>
      refine ⟨fs ++ [(recordPath outDir bench sha,
          failureJson bench sha (env.commitMsgOut sha) (env.commitDateOut sha))],
        (pev ++ [Event.gitLogMsg sha, Event.gitLogDate sha])
          ++ plotSpawns (fs ++ [(recordPath outDir bench sha,
              failureJson bench sha (env.commitMsgOut sha) (env.commitDateOut sha))]), ?_,
        fun p j hj => lookup_append_some _ _ _ _ hj, hocc _⟩
      simp only [processPair, hne, Bool.false_eq_true, if_false, hr]

theorem processBenches_spec (cfg : Benchmarker) (env : Env) (outDir : FsPath)
    (sha : String) (bs : List String) (fs : FS)
    (hw : ∀ c ∈ cfg.prepare, words c ≠ []) :
    ∃ fs' ev, processBenches cfg env outDir sha bs fs = some (fs', ev)
      ∧ (∀ p j, FS.lookup fs p = some j → FS.lookup fs' p = some j)
      ∧ (∀ b ∈ bs, (FS.lookup fs' (recordPath outDir b sha)).isSome = true) := by
  induction bs generalizing fs with
  | nil => exact ⟨fs, [], rfl, fun p j hj => hj, by simp⟩
  | cons b rest ih =>
    obtain ⟨fs1, e1, h1, mono1, occ1⟩ := processPair_spec cfg env outDir sha b fs hw
    obtain ⟨fs2, e2, h2, mono2, occ2⟩ := ih fs1
    refine ⟨fs2, e1 ++ e2, ?_, fun p j hj => mono2 p j (mono1 p j hj), ?_⟩
    · simp only [processBenches, h1, h2]
    · intro x hx
      rcases List.mem_cons.mp hx with rfl | hx'
      · obtain ⟨j, hj⟩ := Option.isSome_iff_exists.mp occ1
        rw [mono2 _ _ hj]
        rfl
      · exact occ2 x hx'

theorem processCommits_spec (cfg : Benchmarker) (env : Env) (outDir : FsPath)
    (l : List String) (fs : FS)
    (hw : ∀ c ∈ cfg.prepare, words c ≠ []) :
    ∃ fs' ev, processCommits cfg env outDir l fs = some (fs', ev)
      ∧ (∀ p j, FS.lookup fs p = some j → FS.lookup fs' p = some j)
      ∧ (∀ sha ∈ l, ∀ b ∈ cfg.benchmarks,
          (FS.lookup fs' (recordPath outDir b sha)).isSome = true) := by
  induction l generalizing fs with
  | nil => exact ⟨fs, [], rfl, fun p j hj => hj, by simp⟩
  | cons sha rest ih =>
    obtain ⟨fs1, e1, h1, mono1, occ1⟩ :=
      processBenches_spec cfg env outDir sha cfg.benchmarks fs hw
    obtain ⟨fs2, e2, h2, mono2, occ2⟩ := ih fs1
    refine ⟨fs2, Event.gitCheckout sha :: (e1 ++ e2), ?_,
      fun p j hj => mono2 p j (mono1 p j hj), ?_⟩
    · simp only [processCommits, h1, h2]
    · intro x hx
      rcases List.mem_cons.mp hx with rfl | hx'
      · intro b hb
        obtain ⟨j, hj⟩ := Option.isSome_iff_exists.mp (occ1 b hb)
        rw [mono2 _ _ hj]
        rfl
      · exact occ2 x hx'

/-- C2: a sweep never overwrites an existing record — every cached entry
survives with its exact content — and it writes a pair's record exactly
when the file was absent: afterwards every visited pair's path is
occupied.  Since the record path is determined by the pair, at most one
record file per pair ever exists. -/
theorem C2_write_once (cfg : Benchmarker) (env : Env) (fs : FS)
    (hw : ∀ c ∈ cfg.prepare, words c ≠ []) :
    ∃ fs' ev, cfg.run env fs = some (fs', ev)
      ∧ (∀ p j, FS.lookup fs p = some j → FS.lookup fs' p = some j)
      ∧ (∀ sha ∈ takeCommits cfg env.commits, ∀ b ∈ cfg.benchmarks,
          (FS.lookup fs' (recordPath outRoot b sha)).isSome = true) := by
  obtain ⟨fs', ev, h, mono, occ⟩ :=
    processCommits_spec cfg env outRoot (takeCommits cfg env.commits) fs hw
  exact ⟨fs', cloneSpawns env ++ [Event.revList] ++ ev ++ plotSpawns fs',
    by simp only [Benchmarker.run, h], mono, occ⟩

/-- C2 witness: starting from the empty cache with no preparation
commands, the sweep caches the single pair and preserves prior entries. -/
theorem C2_write_once_witness :
    ∃ fs' ev, cfg1.run env1 [] = some (fs', ev)
      ∧ (∀ p j, FS.lookup [] p = some j → FS.lookup fs' p = some j)
      ∧ (∀ sha ∈ takeCommits cfg1 env1.commits, ∀ b ∈ cfg1.benchmarks,
          (FS.lookup fs' (recordPath outRoot b sha)).isSome = true) :=
  C2_write_once cfg1 env1 [] (by decide)

theorem not_measure_not_hyperfine (e : Event) (h : isMeasureEvent e = false) :
    isHyperfine e = false := by
  cases e <;> first | rfl | exact h

theorem lookup_single_ne (q p : FsPath) (j : Json) (h : q ≠ p) :
    FS.lookup [(q, j)] p = none := by
  simp [FS.lookup, h]

theorem string_append_json_inj (a b : String) (h : a ++ ".json" = b ++ ".json") :
    a = b := by
  have hd := congrArg String.data h
  rw [String.data_append, String.data_append] at hd
  have h2 := List.append_cancel_right hd
  cases a
  cases b
  exact congrArg String.mk h2

theorem recordPath_inj (outDir : FsPath) (b1 sha1 b2 sha2 : String)
    (h : recordPath outDir b1 sha1 = recordPath outDir b2 sha2) :
    hexSha256 b1 = hexSha256 b2 ∧ sha1 = sha2 := by
  simp only [recordPath] at h
  have h2 := List.append_cancel_left h
  simp only [List.cons.injEq, and_true] at h2
  exact ⟨h2.1, string_append_json_inj _ _ h2.2⟩

theorem processPair_fail (cfg : Benchmarker) (env : Env) (sha bench : String) (fs : FS)
    (hne : cfg.prepare ≠ [])
    (hw : ∀ c ∈ cfg.prepare, words c ≠ [])
    (hfail : ∀ s c, env.prepareExit s c = false)
    (hb : bench ∈ cfg.benchmarks)
    (hinj : ∀ b1 ∈ cfg.benchmarks, ∀ b2 ∈ cfg.benchmarks,
        hexSha256 b1 = hexSha256 b2 → b1 = b2)
    (hInv : failInv cfg env fs) :
    ∃ fs' ev, processPair cfg env outRoot sha bench fs = some (fs', ev)
      ∧ failInv cfg env fs'
      ∧ FS.lookup fs' (recordPath outRoot bench sha)
          = some (failureJson bench sha (env.commitMsgOut sha) (env.commitDateOut sha))
      ∧ (∀ p j, FS.lookup fs p = some j → FS.lookup fs' p = some j)
      ∧ (∀ e ∈ ev, isHyperfine e = false) := by
  obtain ⟨c, rest, hp⟩ : ∃ c rest, cfg.prepare = c :: rest := by
    cases hcp : cfg.prepare with
    | nil => exact absurd hcp hne
    | cons c rest => exact ⟨c, rest, rfl⟩
  have hrp : run_prepare env sha cfg.prepare = some (false, [Event.prepare c]) := by
    rw [hp]
    exact run_prepare_fail_head env sha c rest (hw c (by simp [hp])) (hfail sha c)
  by_cases hhit : (FS.lookup fs (recordPath outRoot bench sha)).isSome
  · have hstep := processPair_hit cfg env outRoot sha bench fs hhit
    have hcontent : FS.lookup fs (recordPath outRoot bench sha)
        = some (failureJson bench sha (env.commitMsgOut sha) (env.commitDateOut sha)) := by
      rcases hInv bench hb sha with h0 | h0
      · rw [h0] at hhit; cases hhit
      · exact h0
    exact ⟨fs, [] ++ plotSpawns fs, hstep, hInv, hcontent, fun p j hj => hj,
      fun e he => not_measure_not_hyperfine e
        (plotSpawns_not_measure fs e (by simpa using he))⟩
  · have hne' : (FS.lookup fs (recordPath outRoot bench sha)).isSome = false := by
      simpa using hhit
    have habs : FS.lookup fs (recordPath outRoot bench sha) = none := by
      cases hl : FS.lookup fs (recordPath outRoot bench sha) with
      | none => rfl
      | some j => rw [hl] at hne'; cases hne'
    have hstep : processPair cfg env outRoot sha bench fs
        = some (fs ++ [(recordPath outRoot bench sha,
            failureJson bench sha (env.commitMsgOut sha) (env.commitDateOut sha))],
          ([Event.prepare c] ++ [Event.gitLogMsg sha, Event.gitLogDate sha])
            ++ plotSpawns (fs ++ [(recordPath outRoot bench sha,
                failureJson bench sha (env.commitMsgOut sha) (env.commitDateOut sha))])) := by
      simp only [processPair, hne', Bool.false_eq_true, if_false, hrp]
    refine ⟨_, _, hstep, ?_, ?_, fun p j hj => lookup_append_some _ _ _ _ hj, ?_⟩
    · intro b hb' sha'
      by_cases hpe : recordPath outRoot b sha' = recordPath outRoot bench sha
      · right
        obtain ⟨hhex, hsha⟩ := recordPath_inj outRoot b sha' bench sha hpe
        have hbb : b = bench := hinj b hb' bench hb hhex
        subst hbb
        subst hsha
        rw [lookup_append_none _ _ _ habs, lookup_single]
      · rcases hInv b hb' sha' with h0 | h0
        · left
          rw [lookup_append_none _ _ _ h0, lookup_single_ne _ _ _ (fun hq => hpe hq.symm)]
        · right
          rw [lookup_append_some _ _ _ _ h0]
    · rw [lookup_append_none _ _ _ habs, lookup_single]
    · intro e he
      rcases List.mem_append.mp he with h1 | h1
      · rcases List.mem_append.mp h1 with h2 | h2
        · simp only [List.mem_cons, List.not_mem_nil, or_false] at h2
          subst h2
          rfl
        · simp only [List.mem_cons, List.not_mem_nil, or_false] at h2
          rcases h2 with rfl | rfl <;> rfl
      · exact not_measure_not_hyperfine e (plotSpawns_not_measure _ e h1)

theorem processBenches_fail (cfg : Benchmarker) (env : Env) (sha : String)
    (hne : cfg.prepare ≠ [])
    (hw : ∀ c ∈ cfg.prepare, words c ≠ [])
    (hfail : ∀ s c, env.prepareExit s c = false)
    (hinj : ∀ b1 ∈ cfg.benchmarks, ∀ b2 ∈ cfg.benchmarks,
        hexSha256 b1 = hexSha256 b2 → b1 = b2) :
    ∀ (bs : List String) (fs : FS), (∀ b ∈ bs, b ∈ cfg.benchmarks) →
    failInv cfg env fs →
    ∃ fs' ev, processBenches cfg env outRoot sha bs fs = some (fs', ev)
      ∧ failInv cfg env fs'
      ∧ (∀ b ∈ bs, FS.lookup fs' (recordPath outRoot b sha)
          = some (failureJson b sha (env.commitMsgOut sha) (env.commitDateOut sha)))
      ∧ (∀ p j, FS.lookup fs p = some j → FS.lookup fs' p = some j)
      ∧ (∀ e ∈ ev, isHyperfine e = false) := by
  intro bs
  induction bs with
  | nil =>
    intro fs _ hInv
    exact ⟨fs, [], rfl, hInv, by simp, fun p j hj => hj, by simp⟩
  | cons b rest ih =>
    intro fs hsub hInv
    obtain ⟨fs1, e1, h1, hInv1, hcont1, mono1, hh1⟩ :=
      processPair_fail cfg env sha b fs hne hw hfail (hsub b (by simp)) hinj hInv
    obtain ⟨fs2, e2, h2, hInv2, hcont2, mono2, hh2⟩ :=
      ih fs1 (fun x hx => hsub x (by simp [hx])) hInv1
    refine ⟨fs2, e1 ++ e2, ?_, hInv2, ?_,
      fun p j hj => mono2 p j (mono1 p j hj), ?_⟩
    · simp only [processBenches, h1, h2]
    · intro x hx
      rcases List.mem_cons.mp hx with rfl | hx'
      · exact mono2 _ _ hcont1
      · exact hcont2 x hx'
    · intro e he
      rcases List.mem_append.mp he with h' | h'
      · exact hh1 e h'
      · exact hh2 e h'

theorem processCommits_fail (cfg : Benchmarker) (env : Env)
    (hne : cfg.prepare ≠ [])
    (hw : ∀ c ∈ cfg.prepare, words c ≠ [])
    (hfail : ∀ s c, env.prepareExit s c = false)
    (hinj : ∀ b1 ∈ cfg.benchmarks, ∀ b2 ∈ cfg.benchmarks,
        hexSha256 b1 = hexSha256 b2 → b1 = b2) :
    ∀ (l : List String) (fs : FS), failInv cfg env fs →
    ∃ fs' ev, processCommits cfg env outRoot l fs = some (fs', ev)
      ∧ failInv cfg env fs'
      ∧ (∀ sha ∈ l, ∀ b ∈ cfg.benchmarks,
          FS.lookup fs' (recordPath outRoot b sha)
            = some (failureJson b sha (env.commitMsgOut sha) (env.commitDateOut sha)))
      ∧ (∀ p j, FS.lookup fs p = some j → FS.lookup fs' p = some j)
      ∧ (∀ e ∈ ev, isHyperfine e = false)
      ∧ (∀ sha ∈ l, Event.gitCheckout sha ∈ ev) := by
  intro l
  induction l with
  | nil =>
    intro fs hInv
    exact ⟨fs, [], rfl, hInv, by simp, fun p j hj => hj, by simp, by simp⟩
  | cons sha rest ih =>
    intro fs hInv
    obtain ⟨fs1, e1, h1, hInv1, hcont1, mono1, hh1⟩ :=
      processBenches_fail cfg env sha hne hw hfail hinj cfg.benchmarks fs
        (fun b hb => hb) hInv
    obtain ⟨fs2, e2, h2, hInv2, hcont2, mono2, hh2, hchk2⟩ := ih fs1 hInv1
    refine ⟨fs2, Event.gitCheckout sha :: (e1 ++ e2), ?_, hInv2, ?_,
      fun p j hj => mono2 p j (mono1 p j hj), ?_, ?_⟩
    · simp only [processCommits, h1, h2]
    · intro x hx b hb
      rcases List.mem_cons.mp hx with rfl | hx'
      · exact mono2 _ _ (hcont1 b hb)
      · exact hcont2 x hx' b hb
    · intro e he
      rcases List.mem_cons.mp he with rfl | h'
      · rfl
      · rcases List.mem_append.mp h' with h'' | h''
        · exact hh1 e h''
        · exact hh2 e h''
    · intro x hx
      rcases List.mem_cons.mp hx with rfl | hx'
      · exact List.mem_cons_self _ _
      · exact List.mem_cons_of_mem _ (List.mem_append_right _ (hchk2 x hx'))

/-- C3: with a non-empty preparation list whose commands always exit
non-zero (and hash-distinct benchmark commands), the benchmark backend is
never invoked, the sweep still checks out every revision — it does not
abort early — and every (revision, benchmark) pair ends with exactly its
failure record in the cache. -/
theorem C3_failure_containment (cfg : Benchmarker) (env : Env)
    (hne : cfg.prepare ≠ [])
    (hw : ∀ c ∈ cfg.prepare, words c ≠ [])
    (hfail : ∀ s c, env.prepareExit s c = false)
    (hinj : ∀ b1 ∈ cfg.benchmarks, ∀ b2 ∈ cfg.benchmarks,
        hexSha256 b1 = hexSha256 b2 → b1 = b2) :
    ∃ fs' ev, cfg.run env [] = some (fs', ev)
      ∧ (∀ e ∈ ev, isHyperfine e = false)
      ∧ (∀ sha ∈ takeCommits cfg env.commits, Event.gitCheckout sha ∈ ev)
      ∧ (∀ sha ∈ takeCommits cfg env.commits, ∀ b ∈ cfg.benchmarks,
          FS.lookup fs' (recordPath outRoot b sha)
            = some (failureJson b sha (env.commitMsgOut sha) (env.commitDateOut sha))) := by
  have hInv0 : failInv cfg env [] := fun b _ sha => Or.inl rfl
  obtain ⟨fs', ev, h, _, hcont, _, hh, hchk⟩ :=
    processCommits_fail cfg env hne hw hfail hinj (takeCommits cfg env.commits) [] hInv0
  refine ⟨fs', cloneSpawns env ++ [Event.revList] ++ ev ++ plotSpawns fs',
    ?_, ?_, ?_, hcont⟩
  · simp only [Benchmarker.run, h]
  · intro e he
    rcases List.mem_append.mp he with h1 | h1
    · rcases List.mem_append.mp h1 with h2 | h2
      · rcases List.mem_append.mp h2 with h3 | h3
        · exact not_measure_not_hyperfine e (cloneSpawns_not_measure env e h3)
        · simp only [List.mem_cons, List.not_mem_nil, or_false] at h3
          subst h3
          rfl
      · exact hh e h2
    · exact not_measure_not_hyperfine e (plotSpawns_not_measure fs' e h1)
  · intro sha hsha
    exact List.mem_append_left _ (List.mem_append_right _ (hchk sha hsha))

/-- C3 witness: one always-failing preparation command, one benchmark, one
revision, starting from the empty cache. -/
theorem C3_failure_containment_witness :
    ∃ fs' ev, cfg3.run env10 [] = some (fs', ev)
      ∧ (∀ e ∈ ev, isHyperfine e = false)
      ∧ (∀ sha ∈ takeCommits cfg3 env10.commits, Event.gitCheckout sha ∈ ev)
      ∧ (∀ sha ∈ takeCommits cfg3 env10.commits, ∀ b ∈ cfg3.benchmarks,
          FS.lookup fs' (recordPath outRoot b sha)
            = some (failureJson b sha (env10.commitMsgOut sha)
                (env10.commitDateOut sha))) :=
  C3_failure_containment cfg3 env10 (by decide) (by decide) (fun s c => rfl) (by decide)
